import Mathlib

/-!
Verification of the lint-fixing script `fix-lint.py`.

The script applies Python `re.sub` substitutions to the text of a fixed list
of files.  We shallowly embed the relevant fragment of Python's regex engine:
every pattern used by the script is a sequence of simple items (literals,
greedy star/plus/option of a character class, an alternation of literals, a
one-character lookahead, and the MULTILINE anchors), and `re.sub` replaces
non-overlapping leftmost matches, scanning greedily with backtracking.
Texts are `String`s, processed as their underlying `List Char`.
-/

namespace FixLint

/-- A character class: `neg = false` means "one of `chars`",
`neg = true` means "any character not in `chars`" (like `[^…]`). -/
structure CC where
  neg : Bool
  chars : List Char
deriving DecidableEq, Repr

/-- Membership test of a character in a class. -/
def CC.test (cc : CC) (c : Char) : Bool :=
  if cc.neg then !(cc.chars.contains c) else cc.chars.contains c

/-- Python's `\s` on ASCII text: space, tab, newline, CR, vertical tab, form feed. -/
def wsCC : CC := ⟨false, [' ', '\t', '\n', '\r', '\x0b', '\x0c']⟩

/-- The class `[\n]` (used for `\n+` in the blank-line rule). -/
def nlCC : CC := ⟨false, ['\n']⟩

/-- The class `[^)]`. -/
def notRParen : CC := ⟨true, [')']⟩

/-- The class `[^\]]`. -/
def notRBrack : CC := ⟨true, [']']⟩

/-- The class `[^}]`. -/
def notRBrace : CC := ⟨true, ['\x7d']⟩

/-- The class `[^;]`. -/
def notSemi : CC := ⟨true, [';']⟩

/-- The class `[,}]` (used in the lookahead `(?=[,}])`). -/
def commaOrBrace : CC := ⟨false, [',', '\x7d']⟩

/-- One item of a regex pattern.  The patterns of `fix-lint.py` only quantify
character classes and only alternate literals, so this small language covers
all of them faithfully:
`lit s` is a literal; `star cc`, `plus cc`, `opt cc` are greedy `X*`, `X+`,
`X?` over a class; `alts as` is a capturing group of literal alternatives
(tried left to right); `capPlus cc` is a capturing greedy `([^x]+)`;
`look cc` is a one-character lookahead `(?=[…])`; `bol`/`eol` are `^`/`$`
under `re.MULTILINE`. -/
inductive RItem where
  | lit : List Char → RItem
  | star : CC → RItem
  | plus : CC → RItem
  | opt : CC → RItem
  | alts : List (List Char) → RItem
  | capPlus : CC → RItem
  | look : CC → RItem
  | bol : RItem
  | eol : RItem
deriving DecidableEq, Repr

/-- Captured groups, in pattern order. -/
abbrev Caps := List (List Char)

/-- The character preceding the position reached after consuming `k`
characters of `txt`, given the character `prev` preceding `txt` itself. -/
def newPrev (txt : List Char) (k : Nat) (prev : Option Char) : Option Char :=
  if k = 0 then prev else (txt.take k).getLast?

/-- Length of the maximal prefix run of characters satisfying `cc`. -/
def runLen (cc : CC) : List Char → Nat
  | [] => 0
  | c :: cs => if cc.test c then runLen cc cs + 1 else 0

/-- Greedy backtracking for `X*`: try to consume `i` characters (starting
from the maximal run) and back off one at a time until the continuation `k`
succeeds. -/
def tryDrops (k : List Char → Option Char → Option (Nat × Caps))
    (txt : List Char) (prev : Option Char) : Nat → Option (Nat × Caps)
  | 0 => k txt prev
  | i + 1 =>
    match k (txt.drop (i + 1)) (newPrev txt (i + 1) prev) with
    | some (m, cs) => some (i + 1 + m, cs)
    | none => tryDrops k txt prev i

/-- Greedy backtracking for `X+`: like `tryDrops` but at least one character. -/
def plusDrops (k : List Char → Option Char → Option (Nat × Caps))
    (txt : List Char) (prev : Option Char) : Nat → Option (Nat × Caps)
  | 0 => none
  | i + 1 =>
    match k (txt.drop (i + 1)) (newPrev txt (i + 1) prev) with
    | some (m, cs) => some (i + 1 + m, cs)
    | none => plusDrops k txt prev i

/-- Greedy backtracking for a capturing `([^x]+)`: records the consumed run. -/
def capDrops (k : List Char → Option Char → Option (Nat × Caps))
    (txt : List Char) (prev : Option Char) : Nat → Option (Nat × Caps)
  | 0 => none
  | i + 1 =>
    match k (txt.drop (i + 1)) (newPrev txt (i + 1) prev) with
    | some (m, cs) => some (i + 1 + m, txt.take (i + 1) :: cs)
    | none => capDrops k txt prev i

/-- Alternation of literals, tried left to right; the matched alternative is
captured. -/
def altsTry (k : List Char → Option Char → Option (Nat × Caps))
    (txt : List Char) (prev : Option Char) : List (List Char) → Option (Nat × Caps)
  | [] => none
  | a :: rest =>
    if a.isPrefixOf txt then
      match k (txt.drop a.length) (newPrev txt a.length prev) with
      | some (m, cs) => some (a.length + m, a :: cs)
      | none => altsTry k txt prev rest
    else altsTry k txt prev rest

/-- Match a pattern at the start of `txt` (`prev` is the character before the
current position, for the MULTILINE anchors).  Returns the number of
characters consumed and the captures, following Python's leftmost-greedy
backtracking semantics. -/
def matchItems : List RItem → List Char → Option Char → Option (Nat × Caps)
  | [], _, _ => some (0, [])
  | .lit l :: its, txt, prev =>
    if l.isPrefixOf txt then
      match matchItems its (txt.drop l.length) (newPrev txt l.length prev) with
      | some (m, cs) => some (l.length + m, cs)
      | none => none
    else none
  | .star cc :: its, txt, prev => tryDrops (matchItems its) txt prev (runLen cc txt)
  | .plus cc :: its, txt, prev => plusDrops (matchItems its) txt prev (runLen cc txt)
  | .opt cc :: its, txt, prev => tryDrops (matchItems its) txt prev (min (runLen cc txt) 1)
  | .alts as :: its, txt, prev => altsTry (matchItems its) txt prev as
  | .capPlus cc :: its, txt, prev => capDrops (matchItems its) txt prev (runLen cc txt)
  | .look cc :: its, txt, prev =>
    match txt with
    | c :: _ => if cc.test c then matchItems its txt prev else none
    | [] => none
  | .bol :: its, txt, prev =>
    match prev with
    | none => matchItems its txt prev
    | some c => if c = '\n' then matchItems its txt prev else none
  | .eol :: its, txt, prev =>
    match txt with
    | [] => matchItems its txt prev
    | c :: _ => if c = '\n' then matchItems its txt prev else none

/-- Find the leftmost match of a pattern: returns the unmatched prefix, the
number of characters matched, the captures, and the rest of the text after
the match. -/
def scan (p : List RItem) : List Char → Option Char → Option (List Char × Nat × Caps × List Char)
  | [], prev =>
    match matchItems p [] prev with
    | some (n, cs) => some ([], n, cs, [])
    | none => none
  | c :: rest, prev =>
    match matchItems p (c :: rest) prev with
    | some (n, cs) => some ([], n, cs, (c :: rest).drop n)
    | none =>
      match scan p rest (some c) with
      | some (pre, n, cs, after) => some (c :: pre, n, cs, after)
      | none => none

/-- A piece of a `re.sub` replacement template: a literal string or a
reference to capture group 1. -/
inductive Tpl where
  | str : List Char → Tpl
  | ref1 : Tpl
deriving DecidableEq, Repr

/-- Instantiate a replacement template with the captures of a match. -/
def instTpl (tpl : List Tpl) (caps : Caps) : List Char :=
  match tpl with
  | [] => []
  | .str s :: rest => s ++ instTpl rest caps
  | .ref1 :: rest => caps.headD [] ++ instTpl rest caps

/-- Replace all non-overlapping leftmost matches, like `re.sub`.  `fuel`
bounds the number of replacements; since none of the script's patterns can
match the empty string, `length + 1` fuel is always enough. -/
def subGo (p : List RItem) (tpl : List Tpl) :
    Nat → List Char → Option Char → List Char
  | 0, txt, _ => txt
  | fuel + 1, txt, prev =>
    match scan p txt prev with
    | none => txt
    | some (pre, n, cs, rest) =>
      match n with
      | 0 => txt
      | _ + 1 =>
        pre ++ instTpl tpl cs ++
          subGo p tpl fuel rest (newPrev txt (pre.length + n) prev)

/-- `re.sub(pattern, template, s)` on strings. -/
def reSub (p : List RItem) (tpl : List Tpl) (s : String) : String :=
  let d := s.data
  ⟨subGo p tpl (d.length + 1) d none⟩

/-- `needle in haystack` on strings (Python's substring test). -/
def hasSub (needle : List Char) : List Char → Bool
  | [] => needle.isEmpty
  | c :: t => needle.isPrefixOf (c :: t) || hasSub needle t

/-- `fragment in str(file_path)` as used by the script's gates. -/
def strContains (hay needle : String) : Bool :=
  hasSub needle.data hay.data

/-- Literal pattern item from a string. -/
def L (s : String) : RItem := .lit s.data

/-- Literal template piece from a string. -/
def S (s : String) : Tpl := .str s.data

/-! ### The patterns of `remove_console_logs`, in source order.
Literal braces are written `\x7b` / `\x7d` and quotes `\x27` in strings. -/

/-- `^\s*console\.(log|error|warn|info)\([^)]*\);\s*$` (MULTILINE). -/
def R1 : List RItem :=
  [.bol, .star wsCC, L ("console."),
   .alts [("log").data, ("error").data, ("warn").data, ("info").data],
   L ("("), .star notRParen, L (");"), .star wsCC, .eol]

/-- `\s*if\s*\(shouldLog\(\)\)\s*{\s*console\.log\([^)]*\);\s*}`. -/
def R2 : List RItem :=
  [.star wsCC, L ("if"), .star wsCC, L ("(shouldLog())"), .star wsCC,
   L ("\x7b"), .star wsCC, L ("console.log("), .star notRParen, L (");"),
   .star wsCC, L ("\x7d")]

/-- `onClick=\{\(\)\s*=>\s*console\.log\([^)]*\)\}`. -/
def R3 : List RItem :=
  [L ("onClick=\x7b()"), .star wsCC, L ("=>"), .star wsCC,
   L ("console.log("), .star notRParen, L (")\x7d")]

/-- Replacement `onClick={() => {}}`. -/
def tplR3 : List Tpl := [S ("onClick=\x7b() => \x7b\x7d\x7d")]

/-- `\.then\(\([^)]*\)\s*=>\s*console\.log\([^)]*\)\)`. -/
def R4 : List RItem :=
  [L (".then(("), .star notRParen, L (")"), .star wsCC, L ("=>"), .star wsCC,
   L ("console.log("), .star notRParen, L ("))")]

/-- `testNotif\.onshow\s*=\s*\(\)\s*=>\s*console\.log\([^)]*\);`. -/
def R5 : List RItem :=
  [L ("testNotif.onshow"), .star wsCC, L ("="), .star wsCC, L ("()"),
   .star wsCC, L ("=>"), .star wsCC, L ("console.log("), .star notRParen, L (");")]

/-- Replacement `testNotif.onshow = () => {};`. -/
def tplR5 : List Tpl := [S ("testNotif.onshow = () => \x7b\x7d;")]

/-- `testNotif\.onclick\s*=\s*\(\)\s*=>\s*{\s*console\.log\([^)]*\);`. -/
def R6 : List RItem :=
  [L ("testNotif.onclick"), .star wsCC, L ("="), .star wsCC, L ("()"),
   .star wsCC, L ("=>"), .star wsCC, L ("\x7b"), .star wsCC,
   L ("console.log("), .star notRParen, L (");")]

/-- Replacement `testNotif.onclick = () => {`. -/
def tplR6 : List Tpl := [S ("testNotif.onclick = () => \x7b")]

/-- `testNotif\.onerror\s*=\s*\(e\)\s*=>\s*console\.error\([^)]*\);`. -/
def R7 : List RItem :=
  [L ("testNotif.onerror"), .star wsCC, L ("="), .star wsCC, L ("(e)"),
   .star wsCC, L ("=>"), .star wsCC, L ("console.error("), .star notRParen, L (");")]

/-- `\n\n\n+` (the blank-line collapsing rule). -/
def R8 : List RItem := [.lit ['\n', '\n'], .plus nlCC]

/-- Replacement `\n\n`. -/
def tplR8 : List Tpl := [.str ['\n', '\n']]

/-- The pure text transformation of `remove_console_logs`: the eight
substitutions applied in source order (each on the previous one's output). -/
def remove_console_logs (content : String) : String :=
  reSub R8 tplR8 (reSub R7 [] (reSub R6 tplR6 (reSub R5 tplR5 (reSub R4 []
    (reSub R3 tplR3 (reSub R2 [] (reSub R1 [] content)))))))

/-! ### The patterns of `fix_unused_imports`. -/

/-- `import\s+{\s*Tags\s*}\s+from\s+'lucide-react';\s*\n?`. -/
def UT1 : List RItem :=
  [L ("import"), .plus wsCC, L ("\x7b"), .star wsCC, L ("Tags"), .star wsCC,
   L ("\x7d"), .plus wsCC, L ("from"), .plus wsCC,
   L ("\x27lucide-react\x27;"), .star wsCC, .opt nlCC]

/-- `,\s*Tags\s*(?=[,}])`. -/
def UT2 : List RItem :=
  [L (","), .star wsCC, L ("Tags"), .star wsCC, .look commaOrBrace]

/-- `{\s*Tags,\s*`. -/
def UT3 : List RItem := [L ("\x7b"), .star wsCC, L ("Tags,"), .star wsCC]

/-- Replacement `{ `. -/
def tplBrace : List Tpl := [S ("\x7b ")]

/-- `,\s*IMP\s*(?=[,}])`, instantiated per import name. -/
def impPat1 (imp : String) : List RItem :=
  [L (","), .star wsCC, .lit imp.data, .star wsCC, .look commaOrBrace]

/-- `IMP,\s*`, instantiated per import name. -/
def impPat2 (imp : String) : List RItem :=
  [.lit (imp.data ++ [',']), .star wsCC]

/-- `import\s+{\s*IMP\s*}\s+from[^;]+;\s*\n?`, instantiated per import name. -/
def impPat3 (imp : String) : List RItem :=
  [L ("import"), .plus wsCC, L ("\x7b"), .star wsCC, .lit imp.data, .star wsCC,
   L ("\x7d"), .plus wsCC, L ("from"), .plus notSemi, L (";"), .star wsCC, .opt nlCC]

/-- The `imports_to_remove` list of the tokens-table branch. -/
def impsToRemove : List String :=
  [("Popover"), ("PopoverContent"), ("PopoverTrigger"), ("Checkbox"), ("Label")]

/-- One iteration of the import-removal loop: the three substitutions for
one import name, in source order. -/
def removeImp (content : String) (imp : String) : String :=
  reSub (impPat3 imp) [] (reSub (impPat2 imp) [] (reSub (impPat1 imp) [] content))

/-- `const\s+\[isDeleting,\s+setIsDeleting\]\s+=\s+useState\([^)]*\);\s*\n?`. -/
def US1 : List RItem :=
  [L ("const"), .plus wsCC, L ("[isDeleting,"), .plus wsCC, L ("setIsDeleting]"),
   .plus wsCC, L ("="), .plus wsCC, L ("useState("), .star notRParen, L (");"),
   .star wsCC, .opt nlCC]

/-- `const\s+\[isLoadingDetails,\s+setIsLoadingDetails\]\s+=\s+useState\([^)]*\);\s*\n?`. -/
def US2 : List RItem :=
  [L ("const"), .plus wsCC, L ("[isLoadingDetails,"), .plus wsCC,
   L ("setIsLoadingDetails]"), .plus wsCC, L ("="), .plus wsCC,
   L ("useState("), .star notRParen, L (");"), .star wsCC, .opt nlCC]

/-- `,\s*X\s*(?=[,}])` (token-details-modal branch). -/
def X1 : List RItem :=
  [L (","), .star wsCC, L ("X"), .star wsCC, .look commaOrBrace]

/-- `{\s*X,\s*` (token-details-modal branch). -/
def X2 : List RItem := [L ("\x7b"), .star wsCC, L ("X,"), .star wsCC]

/-- `,\s*onTagsChange\s*(?=[,}])` (additional-tags branch). -/
def OT1 : List RItem :=
  [L (","), .star wsCC, L ("onTagsChange"), .star wsCC, .look commaOrBrace]

/-- `onTagsChange,\s*` (additional-tags branch). -/
def OT2 : List RItem := [L ("onTagsChange,"), .star wsCC]

/-- `const\s+\[isLoading,\s+setIsLoading\]\s+=\s+useState\([^)]*\);\s*\n?`. -/
def USL : List RItem :=
  [L ("const"), .plus wsCC, L ("[isLoading,"), .plus wsCC, L ("setIsLoading]"),
   .plus wsCC, L ("="), .plus wsCC, L ("useState("), .star notRParen, L (");"),
   .star wsCC, .opt nlCC]

/-- The file-name fragments whose presence in the path the
`fix_unused_imports` pass tests (`'…' in str(file_path)`), in source order. -/
def unusedImportsFragments : List String :=
  [("tokens-table.tsx"), ("token-details-modal.tsx"), ("additional-tags.tsx")]

/-- The pure text transformation of `fix_unused_imports`: three sequential
path-gated groups of substitutions. -/
def fix_unused_imports (path content : String) : String :=
  let c := content
  let c := if strContains path ("tokens-table.tsx") then
      let c := reSub UT1 [] c
      let c := reSub UT2 [] c
      let c := reSub UT3 tplBrace c
      let c := impsToRemove.foldl removeImp c
      let c := reSub US1 [] c
      reSub US2 [] c
    else c
  let c := if strContains path ("token-details-modal.tsx") then
      reSub X2 tplBrace (reSub X1 [] c)
    else c
  if strContains path ("additional-tags.tsx") then
    reSub USL [] (reSub OT2 [] (reSub OT1 [] c))
  else c

/-! ### The patterns of `fix_hook_dependencies`. -/

/-- `setPollsSinceLastActive\(pollsSinceLastActive \+ 1\)`. -/
def HP1 : List RItem := [L ("setPollsSinceLastActive(pollsSinceLastActive + 1)")]

/-- Replacement `setPollsSinceLastActive((prev) => prev + 1)`. -/
def tplHP1 : List Tpl := [S ("setPollsSinceLastActive((prev) => prev + 1)")]

/-- `useMemo\(\(\)\s*=>\s*\{[^}]+return\s+columns;[\s\n]+},\s*\[(onDelete|sortedData)\]\)`. -/
def HP2 : List RItem :=
  [L ("useMemo(()"), .star wsCC, L ("=>"), .star wsCC, L ("\x7b"),
   .plus notRBrace, L ("return"), .plus wsCC, L ("columns;"), .plus wsCC,
   L ("\x7d,"), .star wsCC, L ("["),
   .alts [("onDelete").data, ("sortedData").data], L ("])")]

/-- Replacement `useMemo(() => {\n    return columns;\n  }, [\1, handleDelete])`. -/
def tplHP2 : List Tpl :=
  [S ("useMemo(() => \x7b\n    return columns;\n  \x7d, ["), .ref1,
   S (", handleDelete])")]

/-- `useEffect\(\(\)\s*=>\s*\{[\s\n]+checkBotTag\(\);[\s\n]+},\s*\[\]\)`. -/
def HP3 : List RItem :=
  [L ("useEffect(()"), .star wsCC, L ("=>"), .star wsCC, L ("\x7b"),
   .plus wsCC, L ("checkBotTag();"), .plus wsCC, L ("\x7d,"), .star wsCC, L ("[])")]

/-- Replacement `useEffect(() => {\n    checkBotTag();\n  }, [checkBotTag])`. -/
def tplHP3 : List Tpl :=
  [S ("useEffect(() => \x7b\n    checkBotTag();\n  \x7d, [checkBotTag])")]

/-- `useEffect\(\(\)\s*=>\s*\{[\s\n]+if\s*\([^)]+\)\s*\{[\s\n]+fetchTags\(\);[\s\n]+}[\s\n]+},\s*\[([^\]]+)\]\)`. -/
def HP4 : List RItem :=
  [L ("useEffect(()"), .star wsCC, L ("=>"), .star wsCC, L ("\x7b"),
   .plus wsCC, L ("if"), .star wsCC, L ("("), .plus notRParen, L (")"),
   .star wsCC, L ("\x7b"), .plus wsCC, L ("fetchTags();"), .plus wsCC,
   L ("\x7d"), .plus wsCC, L ("\x7d,"), .star wsCC, L ("["),
   .capPlus notRBrack, L ("])")]

/-- Replacement
`useEffect(() => {\n    if (\1) {\n      fetchTags();\n    }\n  }, [\1, fetchTags])`. -/
def tplHP4 : List Tpl :=
  [S ("useEffect(() => \x7b\n    if ("), .ref1,
   S (") \x7b\n      fetchTags();\n    \x7d\n  \x7d, ["), .ref1,
   S (", fetchTags])")]

/-- The pure text transformation of `fix_hook_dependencies`: four sequential
path-gated substitutions. -/
def fix_hook_dependencies (path content : String) : String :=
  let c := content
  let c := if strContains path ("tokens/page.tsx") then reSub HP1 tplHP1 c else c
  let c := if strContains path ("tokens-table.tsx") then reSub HP2 tplHP2 c else c
  let c := if strContains path ("additional-tags.tsx") then reSub HP3 tplHP3 c else c
  if strContains path ("WalletTagsContext.tsx") then reSub HP4 tplHP4 c else c

/-! ### The driver loop.
Each of the three pass functions re-reads the file, transforms the text and
writes it back exactly when the transformed text differs from what it read.
We model the filesystem as a map from the relative path (the part after
`BASE_DIR`) to the file's content, and record each write as a
(path, written content) pair. -/

/-- The hardcoded `files_to_process` list. -/
def files_to_process : List String :=
  [("app/dashboard/tokens/page.tsx"),
   ("app/dashboard/tokens/token-details-modal.tsx"),
   ("app/dashboard/tokens/tokens-table.tsx"),
   ("app/dashboard/trash/page.tsx"),
   ("components/additional-tags.tsx"),
   ("components/kbar/use-token-search.tsx"),
   ("contexts/ApiSettingsContext.tsx"),
   ("contexts/WalletTagsContext.tsx"),
   ("hooks/useAnalysisNotifications.ts")]

/-- Content of the file after all three passes. -/
def processContent (path c0 : String) : String :=
  fix_hook_dependencies path (fix_unused_imports path (remove_console_logs c0))

/-- The sequence of contents written to the file while processing it: each
pass writes its output exactly when it differs from that pass's input. -/
def passWrites (path c0 : String) : List String :=
  let c1 := remove_console_logs c0
  let c2 := fix_unused_imports path c1
  let c3 := fix_hook_dependencies path c2
  (if c1 = c0 then [] else [c1]) ++ (if c2 = c1 then [] else [c2]) ++
    (if c3 = c2 then [] else [c3])

/-- A filesystem: relative path to file content, `none` when absent. -/
abbrev FS := String → Option String

/-- One console line printed per path by the loop. -/
inductive RunLine where
  | skip : String → RunLine
  | okFixed : String → RunLine
  | noChanges : String → RunLine
deriving DecidableEq, Repr

/-- The path a console line reports on. -/
def RunLine.path : RunLine → String
  | .skip p => p
  | .okFixed p => p
  | .noChanges p => p

/-- One iteration of the `for file_rel_path in files_to_process` loop:
missing files are skipped; otherwise the three passes run and the console
line reports whether any pass returned `True`. -/
def processStep (fs : FS) (p : String) : FS × RunLine × List (String × String) :=
  match fs p with
  | none => (fs, .skip p, [])
  | some c0 =>
    let ws := passWrites p c0
    let fs' := fun q => if q = p then some (processContent p c0) else fs q
    (fs', if ws.isEmpty then .noChanges p else .okFixed p, ws.map (fun w => (p, w)))

/-- The loop over a path list: final filesystem, console lines in order,
and all writes in order. -/
def runGo (fs : FS) : List String → FS × List RunLine × List (String × String)
  | [] => (fs, [], [])
  | p :: ps =>
    let s := processStep fs p
    let r := runGo s.1 ps
    (r.1, s.2.1 :: r.2.1, s.2.2 ++ r.2.2)

/-- A whole run of the script over the hardcoded path list. -/
def run (fs : FS) : FS × List RunLine × List (String × String) :=
  runGo fs files_to_process

/-- All trigger patterns of all rules of the three passes, in source order. -/
def triggerPatterns : List (List RItem) :=
  [R1, R2, R3, R4, R5, R6, R7, R8, UT1, UT2, UT3] ++
    impsToRemove.map impPat1 ++ impsToRemove.map impPat2 ++
    impsToRemove.map impPat3 ++
    [US1, US2, X1, X2, OT1, OT2, USL, HP1, HP2, HP3, HP4]

/-- Whether a pattern matches anywhere in a string. -/
def matchesPat (p : List RItem) (s : String) : Bool :=
  (scan p s.data none).isSome

/-- Whether a character list starts with two newlines. -/
def startsNN : List Char → Bool
  | a :: b :: _ => a == '\n' && b == '\n'
  | _ => false

/-- Whether a character list starts with three newlines. -/
def startsTriple : List Char → Bool
  | a :: b :: c :: _ => a == '\n' && b == '\n' && c == '\n'
  | _ => false

/-- No three consecutive newlines occur anywhere in the list. -/
def noTriple : List Char → Bool
  | [] => true
  | c :: l => !(c == '\n' && startsNN l) && noTriple l

/-! ### Concrete example texts used by the theorems below. -/

/-- The path of the WalletTagsContext file. -/
def walletPath : String := ("contexts/WalletTagsContext.tsx")

/-- The path of the tokens-table file. -/
def tokensTablePath : String := ("app/dashboard/tokens/tokens-table.tsx")

/-- The path of the additional-tags file. -/
def addTagsPath : String := ("components/additional-tags.tsx")

/-- The designated WalletTagsContext effect-block shape. -/
def walletShape0 : String :=
  ("useEffect(() => \x7b\n  if (isConnected) \x7b\n    fetchTags();\n  \x7d\n\x7d, [isConnected])")

/-- The WalletTagsContext shape after one run of the three passes. -/
def walletShape1 : String :=
  ("useEffect(() => \x7b\n    if (isConnected) \x7b\n      fetchTags();\n    \x7d\n  \x7d, [isConnected, fetchTags])")

/-- The WalletTagsContext shape after two runs of the three passes. -/
def walletShape2 : String :=
  ("useEffect(() => \x7b\n    if (isConnected, fetchTags) \x7b\n      fetchTags();\n    \x7d\n  \x7d, [isConnected, fetchTags, fetchTags])")

/-- The effect block named by C4, written inline as in the spec. -/
def checkBotFlat : String :=
  ("useEffect(() => \x7b checkBotTag(); \x7d, [])")

/-- What C4 claims the block is rewritten to. -/
def checkBotFlatClaimed : String :=
  ("useEffect(() => \x7b checkBotTag(); \x7d, [checkBotTag])")

/-- What the script actually rewrites the block to (the replacement string
of the additional-tags rule, with newlines and indentation). -/
def checkBotCanonical : String :=
  ("useEffect(() => \x7b\n    checkBotTag();\n  \x7d, [checkBotTag])")

/-- A content that both the console pass and the unused-imports pass change
(on the tokens-table path), so two writes occur. -/
def twoWriteContent : String :=
  ("console.log(1);\nconst [isDeleting, setIsDeleting] = useState(false);\n")

/-- A tokens-table content whose removed-identifier token shapes occur
outside any import statement. -/
def popoverNonImport : String :=
  ("const obj = \x7b a, Popover \x7d;\nf(Popover, x);\n")

/-- `popoverNonImport` with both non-import occurrences removed. -/
def popoverNonImportOut : String := ("const obj = \x7b a\x7d;\nf(x);\n")

/-- A path matched by no pass-2 or pass-3 gate. -/
def trashPath : String := ("app/dashboard/trash/page.tsx")

/-- The path of the tokens page file. -/
def tokensPagePath : String := ("app/dashboard/tokens/page.tsx")

/-- A standalone debug-print line (the spec's example scenario). -/
def consoleShape : String := ("  console.log(\x27debug\x27);\nrest\n")

/-- The inline click-handler shape (the spec's example scenario). -/
def onClickShape : String := ("onClick=\x7b() => console.log(\x27x\x27)\x7d")

/-- The designated direct-increment shape of the tokens page. -/
def pollsShape : String := ("setPollsSinceLastActive(pollsSinceLastActive + 1)")

/-- The designated memoized-computation shape of the tokens table. -/
def memoShape : String :=
  ("useMemo(() => \x7b\n  x\n  return columns;\n\x7d, [onDelete])")

/-- `consoleShape` after one run of the passes (any path). -/
def consoleShapeOut : String := ("\nrest\n")

/-- `onClickShape` after one run of the passes (any path). -/
def onClickShapeOut : String := ("onClick=\x7b() => \x7b\x7d\x7d")

/-- `pollsShape` after one run of the passes on the tokens page path. -/
def pollsShapeOut : String := ("setPollsSinceLastActive((prev) => prev + 1)")

/-- `memoShape` after one run of the passes on the tokens-table path. -/
def memoShapeOut : String :=
  ("useMemo(() => \x7b\n    return columns;\n  \x7d, [onDelete, handleDelete])")

/-- The C4 effect block embedded in surrounding file text. -/
def checkBotEmbedded : String :=
  ("const a = 1;\nuseEffect(() => \x7b checkBotTag(); \x7d, [])\nexport default C;\n")

/-- `checkBotEmbedded` with the effect block rewritten by the script. -/
def checkBotEmbeddedOut : String :=
  ("const a = 1;\nuseEffect(() => \x7b\n    checkBotTag();\n  \x7d, [checkBotTag])\nexport default C;\n")

/-- The text `indent ++ "console." ++ meth ++ "(" ++ args ++ ");"`: the
standalone console-call line shape that rule 1 targets. -/
def consoleLine (indent meth args : String) : String :=
  ⟨indent.data ++ (("console.").data ++ (meth.data ++ ('(' :: (args.data ++ [')', ';']))))⟩

end FixLint

namespace FixLint

/-- C1 counterexample: the full three-pass process is not idempotent on the
WalletTagsContext.tsx hook-dependency shape.  One application of the passes
rewrites the designated effect block to `walletShape1`, but `walletShape1`
still matches the rule's trigger pattern, so a second application changes
the text again (growing the dependency list and corrupting the `if`
condition). -/
theorem C1_cex :
    processContent walletPath walletShape0 = walletShape1 ∧
      processContent walletPath walletShape1 = walletShape2 ∧
      walletShape2 ≠ walletShape1 :=
  ⟨rfl, rfl, by decide⟩

set_option maxHeartbeats 2000000 in
/-- C1 amended: a second application of the three passes yields no further
change on the designated files' code shapes — the standalone console line,
the inline click handler, the direct-increment rewrite, the memoized
computation, and the additional-tags effect block.  The WalletTagsContext
hook-dependency rewrite is excluded: its output still matches its trigger
(see the counterexample). -/
theorem C1_thm :
    processContent trashPath consoleShape = consoleShapeOut ∧
      processContent trashPath consoleShapeOut = consoleShapeOut ∧
      processContent trashPath onClickShape = onClickShapeOut ∧
      processContent trashPath onClickShapeOut = onClickShapeOut ∧
      processContent tokensPagePath pollsShape = pollsShapeOut ∧
      processContent tokensPagePath pollsShapeOut = pollsShapeOut ∧
      processContent tokensTablePath memoShape = memoShapeOut ∧
      processContent tokensTablePath memoShapeOut = memoShapeOut ∧
      processContent addTagsPath checkBotFlat = checkBotCanonical ∧
      processContent addTagsPath checkBotCanonical = checkBotCanonical :=
  ⟨rfl, rfl, rfl, rfl, rfl, rfl, rfl, rfl, rfl, rfl⟩

/-- C3 counterexample: processing a tokens-table file whose content is
changed both by the console pass and by the unused-imports pass performs
two writes to the file, not at most one. -/
theorem C3_cex :
    (passWrites tokensTablePath twoWriteContent).length = 2 ∧
      ¬ (passWrites tokensTablePath twoWriteContent).length ≤ 1 :=
  ⟨rfl, by decide⟩

/-- C3 amended: processing a path performs at most three file writes (at
most one per pass), each fully replacing the file's content. -/
theorem C3_thm (path c0 : String) : (passWrites path c0).length ≤ 3 := by
  simp only [passWrites]
  split <;> split <;> split <;> simp

/-- C3 amended, witness: the bound is realized at a concrete input. -/
theorem C3_thm_witness : (passWrites ("p") ("x")).length ≤ 3 :=
  C3_thm ("p") ("x")

/-- C4 counterexample: on a file whose path contains `additional-tags.tsx`,
the hook-dependency pass rewrites the block
`useEffect(() => { checkBotTag(); }, [])` to the newline-and-indentation
formatted replacement string, not to the single-line text the claim
states. -/
theorem C4_cex :
    fix_hook_dependencies addTagsPath checkBotFlat = checkBotCanonical ∧
      checkBotCanonical ≠ checkBotFlatClaimed :=
  ⟨rfl, by decide⟩

/-- C4 amended: the occurrence is rewritten to exactly
`useEffect(() => {\n    checkBotTag();\n  }, [checkBotTag])`, also when the
block is embedded in surrounding file text. -/
theorem C4_thm :
    fix_hook_dependencies addTagsPath checkBotFlat = checkBotCanonical ∧
      fix_hook_dependencies addTagsPath checkBotEmbedded = checkBotEmbeddedOut :=
  ⟨rfl, rfl⟩

/-- A step at a missing path does nothing but print the skip line. -/
theorem processStep_none (fs : FS) (q : String) (h : fs q = none) :
    processStep fs q = (fs, RunLine.skip q, []) := by
  unfold processStep
  rw [h]

/-- A step at a present path leaves every other path's content unchanged
and sets its own path to the fully processed content. -/
theorem processStep_some_fs (fs : FS) (q c0 : String) (h : fs q = some c0) :
    (processStep fs q).1 =
      fun r => if r = q then some (processContent q c0) else fs r := by
  unfold processStep
  rw [h]

/-- The console line of a step at a present path reports whether any pass
changed the text. -/
theorem processStep_some_line (fs : FS) (q c0 : String) (h : fs q = some c0) :
    (processStep fs q).2.1 =
      if (passWrites q c0).isEmpty then RunLine.noChanges q
        else RunLine.okFixed q := by
  unfold processStep
  rw [h]

/-- The writes of a step at a present path are those of `passWrites`,
tagged with the step's path. -/
theorem processStep_some_writes (fs : FS) (q c0 : String) (h : fs q = some c0) :
    (processStep fs q).2.2 = (passWrites q c0).map (fun x => (q, x)) := by
  unfold processStep
  rw [h]

/-- The console line of a step always reports the step's path. -/
theorem processStep_path (fs : FS) (p : String) :
    ((processStep fs p).2.1).path = p := by
  cases h : fs p
  · rw [processStep_none fs p h]
    rfl
  · rw [processStep_some_line fs p _ h]
    split <;> rfl

/-- The loop prints exactly one line per path, in list order. -/
theorem runGo_map_path (ps : List String) :
    ∀ fs, ((runGo fs ps).2.1).map RunLine.path = ps := by
  induction ps with
  | nil => intro fs; rfl
  | cons q ps ih =>
    intro fs
    simp only [runGo, List.map]
    rw [processStep_path, ih]

/-- A step never touches a path that is absent and different from its own:
the filesystem stays absent at `p`, and no write carries path `p`. -/
theorem processStep_missing (fs : FS) (p q : String) (h : fs p = none) :
    (processStep fs q).1 p = none ∧ ∀ w ∈ (processStep fs q).2.2, w.1 ≠ p := by
  cases hfq : fs q with
  | none =>
    rw [processStep_none fs q hfq]
    exact ⟨h, by simp⟩
  | some c0 =>
    have hpq : p ≠ q := by
      intro hh
      rw [hh, hfq] at h
      cases h
    constructor
    · rw [processStep_some_fs fs q c0 hfq]
      show (if p = q then some (processContent q c0) else fs p) = none
      rw [if_neg hpq]
      exact h
    · rw [processStep_some_writes fs q c0 hfq]
      intro w hw2
      obtain ⟨x, _, hx⟩ := List.mem_map.mp hw2
      rw [← hx]
      exact fun hh => hpq hh.symm

/-- Missing-path behaviour of the whole loop: the path stays absent, no
write ever targets it, and if it is in the list its line is a skip line. -/
theorem runGo_missing (p : String) (ps : List String) :
    ∀ fs, fs p = none →
      (runGo fs ps).1 p = none ∧
        (∀ w ∈ (runGo fs ps).2.2, w.1 ≠ p) ∧
        (p ∈ ps → RunLine.skip p ∈ (runGo fs ps).2.1) := by
  induction ps with
  | nil => intro fs h; simp [runGo, h]
  | cons q ps ih =>
    intro fs h
    obtain ⟨hs1, hs2⟩ := processStep_missing fs p q h
    obtain ⟨ih1, ih2, ih3⟩ := ih _ hs1
    refine ⟨ih1, ?_, ?_⟩
    · intro w hw
      simp only [runGo, List.mem_append] at hw
      cases hw with
      | inl hw => exact hs2 w hw
      | inr hw => exact ih2 w hw
    · intro hmem
      simp only [runGo, List.mem_cons]
      rcases List.mem_cons.mp hmem with hqp | hmem'
      · left
        subst hqp
        rw [processStep_none fs p h]
      · right
        exact ih3 hmem'

/-- C5: when a path of the fixed list is absent from the filesystem, the run
prints a skip line for it, performs no write to it (it stays absent), and
still prints exactly one line per path of the list, in order. -/
theorem C5_thm (fs : FS) (p : String) (hmem : p ∈ files_to_process)
    (hmiss : fs p = none) :
    RunLine.skip p ∈ (run fs).2.1 ∧
      ((run fs).2.1).map RunLine.path = files_to_process ∧
      (∀ w ∈ (run fs).2.2, w.1 ≠ p) ∧ (run fs).1 p = none := by
  obtain ⟨h1, h2, h3⟩ := runGo_missing p files_to_process fs hmiss
  exact ⟨h3 hmem, runGo_map_path _ _, h2, h1⟩

/-- C5, witness: a run over an empty filesystem skips the WalletTagsContext
path, writes nothing to it, and still prints one line per path. -/
theorem C5_thm_witness :
    RunLine.skip ("contexts/WalletTagsContext.tsx") ∈
        (run (fun _ => none)).2.1 ∧
      ((run (fun _ => none)).2.1).map RunLine.path = files_to_process ∧
      (∀ w ∈ (run (fun _ => none)).2.2,
        w.1 ≠ ("contexts/WalletTagsContext.tsx")) ∧
      (run (fun _ => none)).1 ("contexts/WalletTagsContext.tsx") = none :=
  C5_thm (fun _ => none) ("contexts/WalletTagsContext.tsx")
    (by simp [files_to_process]) rfl

/-- C6 counterexample: the unused-symbol pass tests the path against three
file-name fragments, not four. -/
theorem C6_cex :
    unusedImportsFragments.length = 3 ∧ unusedImportsFragments.length ≠ 4 :=
  ⟨rfl, by decide⟩

/-- C6 amended: the unused-symbol pass is gated on the path containing one
of its three file-name fragments; for every text and every path containing
none of them the pass returns the text unchanged. -/
theorem C6_thm (path content : String)
    (h : ∀ f ∈ unusedImportsFragments, strContains path f = false) :
    fix_unused_imports path content = content := by
  have h1 : strContains path ("tokens-table.tsx") = false :=
    h _ (by simp [unusedImportsFragments])
  have h2 : strContains path ("token-details-modal.tsx") = false :=
    h _ (by simp [unusedImportsFragments])
  have h3 : strContains path ("additional-tags.tsx") = false :=
    h _ (by simp [unusedImportsFragments])
  simp [fix_unused_imports, h1, h2, h3]

/-- C6 amended, witness: a path containing none of the fragments is left
unchanged with arbitrary content. -/
theorem C6_thm_witness :
    fix_unused_imports ("app/dashboard/trash/page.tsx") ("\x7b Tags, X \x7d") =
      ("\x7b Tags, X \x7d") :=
  C6_thm ("app/dashboard/trash/page.tsx") ("\x7b Tags, X \x7d") (by decide)

/-- A substitution whose pattern matches nowhere returns the text unchanged. -/
theorem reSub_id_of_no_match (p : List RItem) (tpl : List Tpl) (s : String)
    (h : matchesPat p s = false) : reSub p tpl s = s := by
  cases ho : scan p s.data none with
  | some v =>
    exfalso
    unfold matchesPat at h
    rw [ho] at h
    cases h
  | none =>
    simp only [reSub, subGo, ho]

/-- C8: a file content that matches none of the trigger patterns of any
rule of the three passes is returned unchanged by each pass, for every
path, and no write to the file occurs. -/
theorem C8_thm (path content : String)
    (h : ∀ p ∈ triggerPatterns, matchesPat p content = false) :
    remove_console_logs content = content ∧
      fix_unused_imports path content = content ∧
      fix_hook_dependencies path content = content ∧
      passWrites path content = [] := by
  have e1 : remove_console_logs content = content := by
    unfold remove_console_logs
    rw [reSub_id_of_no_match _ _ _ (h R1 (by decide)),
      reSub_id_of_no_match _ _ _ (h R2 (by decide)),
      reSub_id_of_no_match _ _ _ (h R3 (by decide)),
      reSub_id_of_no_match _ _ _ (h R4 (by decide)),
      reSub_id_of_no_match _ _ _ (h R5 (by decide)),
      reSub_id_of_no_match _ _ _ (h R6 (by decide)),
      reSub_id_of_no_match _ _ _ (h R7 (by decide)),
      reSub_id_of_no_match _ _ _ (h R8 (by decide))]
  have e2 : fix_unused_imports path content = content := by
    unfold fix_unused_imports
    simp only [impsToRemove, List.foldl, removeImp,
      reSub_id_of_no_match _ _ _ (h UT1 (by decide)),
      reSub_id_of_no_match _ _ _ (h UT2 (by decide)),
      reSub_id_of_no_match _ _ _ (h UT3 (by decide)),
      reSub_id_of_no_match _ _ _ (h (impPat1 ("Popover")) (by decide)),
      reSub_id_of_no_match _ _ _ (h (impPat2 ("Popover")) (by decide)),
      reSub_id_of_no_match _ _ _ (h (impPat3 ("Popover")) (by decide)),
      reSub_id_of_no_match _ _ _ (h (impPat1 ("PopoverContent")) (by decide)),
      reSub_id_of_no_match _ _ _ (h (impPat2 ("PopoverContent")) (by decide)),
      reSub_id_of_no_match _ _ _ (h (impPat3 ("PopoverContent")) (by decide)),
      reSub_id_of_no_match _ _ _ (h (impPat1 ("PopoverTrigger")) (by decide)),
      reSub_id_of_no_match _ _ _ (h (impPat2 ("PopoverTrigger")) (by decide)),
      reSub_id_of_no_match _ _ _ (h (impPat3 ("PopoverTrigger")) (by decide)),
      reSub_id_of_no_match _ _ _ (h (impPat1 ("Checkbox")) (by decide)),
      reSub_id_of_no_match _ _ _ (h (impPat2 ("Checkbox")) (by decide)),
      reSub_id_of_no_match _ _ _ (h (impPat3 ("Checkbox")) (by decide)),
      reSub_id_of_no_match _ _ _ (h (impPat1 ("Label")) (by decide)),
      reSub_id_of_no_match _ _ _ (h (impPat2 ("Label")) (by decide)),
      reSub_id_of_no_match _ _ _ (h (impPat3 ("Label")) (by decide)),
      reSub_id_of_no_match _ _ _ (h US1 (by decide)),
      reSub_id_of_no_match _ _ _ (h US2 (by decide)),
      reSub_id_of_no_match _ _ _ (h X1 (by decide)),
      reSub_id_of_no_match _ _ _ (h X2 (by decide)),
      reSub_id_of_no_match _ _ _ (h OT1 (by decide)),
      reSub_id_of_no_match _ _ _ (h OT2 (by decide)),
      reSub_id_of_no_match _ _ _ (h USL (by decide)),
      ite_self]
  have e3 : fix_hook_dependencies path content = content := by
    unfold fix_hook_dependencies
    simp only [
      reSub_id_of_no_match _ _ _ (h HP1 (by decide)),
      reSub_id_of_no_match _ _ _ (h HP2 (by decide)),
      reSub_id_of_no_match _ _ _ (h HP3 (by decide)),
      reSub_id_of_no_match _ _ _ (h HP4 (by decide)),
      ite_self]
  refine ⟨e1, e2, e3, ?_⟩
  simp only [passWrites, e1, e2, e3, if_pos rfl]
  rfl

/-- C8, witness: a content with no trigger pattern at all is unchanged by
all passes and causes no write. -/
theorem C8_thm_witness :
    remove_console_logs ("hello world") = ("hello world") ∧
      fix_unused_imports ("p") ("hello world") = ("hello world") ∧
      fix_hook_dependencies ("p") ("hello world") = ("hello world") ∧
      passWrites ("p") ("hello world") = [] :=
  C8_thm ("p") ("hello world") (by decide)


theorem nlCC_test (c : Char) : nlCC.test c = (c == '\n') := by
  cases h : c == '\n' <;> simp [nlCC, CC.test, List.contains, List.elem, h]

theorem notRParen_test (c : Char) : notRParen.test c = !(c == ')') := by
  cases h : c == ')' <;> simp [notRParen, CC.test, List.contains, List.elem, h]

theorem runLen_nl_decomp (l : List Char) :
    l = List.replicate (runLen nlCC l) '\n' ++ l.drop (runLen nlCC l) ∧
      (l.drop (runLen nlCC l)).head? ≠ some '\n' := by
  induction l with
  | nil => exact ⟨rfl, by simp⟩
  | cons c cs ih =>
    by_cases hc : c = '\n'
    · subst hc
      have hr : runLen nlCC ('\n' :: cs) = runLen nlCC cs + 1 := by
        simp [runLen, nlCC_test]
      rw [hr]
      constructor
      · show '\n' :: cs = List.replicate (runLen nlCC cs + 1) '\n' ++ _
        rw [List.replicate_succ]
        show '\n' :: cs = '\n' :: (List.replicate (runLen nlCC cs) '\n' ++ cs.drop (runLen nlCC cs))
        rw [← ih.1]
      · show (('\n' :: cs).drop (runLen nlCC cs + 1)).head? ≠ some '\n'
        rw [List.drop_succ_cons]
        exact ih.2
    · have hr : runLen nlCC (c :: cs) = 0 := by
        simp [runLen, nlCC_test, hc]
      rw [hr]
      exact ⟨rfl, by simp [hc]⟩

theorem matchItems_R8_some (rest : List Char) (prev : Option Char) :
    matchItems R8 ('\n' :: '\n' :: '\n' :: rest) prev =
      some (3 + runLen nlCC rest, []) := by
  have h1 : runLen nlCC ('\n' :: rest) = runLen nlCC rest + 1 := by
    simp [runLen, nlCC_test]
  simp [R8, matchItems, List.isPrefixOf, plusDrops, h1]
  all_goals omega

theorem matchItems_R8_none (txt : List Char) (prev : Option Char)
    (h : startsTriple txt = false) : matchItems R8 txt prev = none := by
  match txt with
  | [] => rfl
  | [a] => simp [R8, matchItems, List.isPrefixOf]
  | [a, b] =>
    cases ha : a == '\n' <;> cases hb : b == '\n' <;>
      simp [R8, matchItems, List.isPrefixOf, plusDrops, runLen, ha, hb]
  | a :: b :: c :: rest =>
    simp only [startsTriple] at h
    cases ha : a == '\n' <;> cases hb : b == '\n' <;> cases hc : c == '\n' <;>
      simp [ha, hb, hc] at h ⊢ <;>
      simp [R8, matchItems, List.isPrefixOf, plusDrops, runLen, nlCC_test, ha, hb, hc]
    · exact fun hh => absurd hh.symm (ne_of_beq_false ha)
    · exact fun hh => absurd hh.symm (ne_of_beq_false ha)
    · exact fun _ hh2 => absurd hh2.symm (ne_of_beq_false hb)

theorem noTriple_tail (c : Char) (l : List Char) (h : noTriple (c :: l) = true) :
    noTriple l = true := by
  simp only [noTriple, Bool.and_eq_true] at h
  exact h.2

theorem startsTriple_of_noTriple (l : List Char) (h : noTriple l = true) :
    startsTriple l = false := by
  match l with
  | [] => rfl
  | [a] => rfl
  | [a, b] => rfl
  | a :: b :: c :: rest =>
    simp only [noTriple, startsNN, Bool.and_eq_true, Bool.not_eq_true'] at h
    simp only [startsTriple]
    rw [Bool.and_assoc]
    exact h.1

theorem startsTriple_shape (l : List Char) (h : startsTriple l = true) :
    ∃ r, l = '\n' :: '\n' :: '\n' :: r := by
  match l with
  | [] => exact absurd h (by simp [startsTriple])
  | [a] => exact absurd h (by simp [startsTriple])
  | [a, b] => exact absurd h (by simp [startsTriple])
  | a :: b :: c :: rest =>
    simp only [startsTriple, Bool.and_eq_true, beq_iff_eq] at h
    exact ⟨rest, by rw [h.1.1, h.1.2, h.2]⟩

theorem startsNN_shape (l : List Char) (h : startsNN l = true) :
    ∃ r, l = '\n' :: '\n' :: r := by
  match l with
  | [] => exact absurd h (by simp [startsNN])
  | [a] => exact absurd h (by simp [startsNN])
  | a :: b :: rest =>
    simp only [startsNN, Bool.and_eq_true, beq_iff_eq] at h
    exact ⟨rest, by rw [h.1, h.2]⟩

theorem scan_nil (p : List RItem) (prev : Option Char) :
    scan p [] prev =
      match matchItems p [] prev with
      | some (n, cs) => some ([], n, cs, [])
      | none => none := by
  simp only [scan]

theorem scan_cons (p : List RItem) (c : Char) (rest : List Char) (prev : Option Char) :
    scan p (c :: rest) prev =
      match matchItems p (c :: rest) prev with
      | some (n, cs) => some ([], n, cs, (c :: rest).drop n)
      | none =>
        match scan p rest (some c) with
        | some (pre, n, cs, after) => some (c :: pre, n, cs, after)
        | none => none := by
  simp only [scan]

theorem scan_R8_none (txt : List Char) (h : noTriple txt = true) :
    ∀ prev, scan R8 txt prev = none := by
  induction txt with
  | nil =>
    intro prev
    rw [scan_nil, matchItems_R8_none [] prev rfl]
  | cons c rest ih =>
    intro prev
    rw [scan_cons, matchItems_R8_none _ _ (startsTriple_of_noTriple _ h),
      ih (noTriple_tail _ _ h) (some c)]

theorem matchItems_R8_some_inv (txt : List Char) (prev : Option Char)
    (n : Nat) (cps : Caps) (h : matchItems R8 txt prev = some (n, cps)) :
    ∃ r, txt = '\n' :: '\n' :: '\n' :: r ∧ n = 3 + runLen nlCC r ∧ cps = [] := by
  cases hb : startsTriple txt with
  | false =>
    rw [matchItems_R8_none txt prev hb] at h
    cases h
  | true =>
    obtain ⟨r, hr⟩ := startsTriple_shape txt hb
    subst hr
    rw [matchItems_R8_some r prev] at h
    simp only [Option.some.injEq, Prod.mk.injEq] at h
    exact ⟨r, rfl, h.1.symm, h.2.symm⟩

theorem not_startsTriple_of_matchNone (txt : List Char) (prev : Option Char)
    (hm : matchItems R8 txt prev = none) : startsTriple txt = false := by
  cases hb : startsTriple txt with
  | false => rfl
  | true =>
    obtain ⟨r, hr⟩ := startsTriple_shape txt hb
    rw [hr, matchItems_R8_some r prev] at hm
    cases hm

theorem scan_R8_some (txt : List Char) :
    ∀ prev pre n cps after, scan R8 txt prev = some (pre, n, cps, after) →
      txt = pre ++ List.replicate n '\n' ++ after ∧ 3 ≤ n ∧ cps = [] ∧
        noTriple pre = true ∧ pre.getLast? ≠ some '\n' ∧
        after.head? ≠ some '\n' := by
  induction txt with
  | nil =>
    intro prev pre n cps after h
    rw [scan_nil, matchItems_R8_none [] prev rfl] at h
    cases h
  | cons c rest ih =>
    intro prev pre n cps after h
    rw [scan_cons] at h
    cases hm : matchItems R8 (c :: rest) prev with
    | some v =>
      obtain ⟨m, cs2⟩ := v
      rw [hm] at h
      obtain ⟨r, hshape, hn, hcps⟩ := matchItems_R8_some_inv (c :: rest) prev m cs2 hm
      simp only [Option.some.injEq, Prod.mk.injEq] at h
      obtain ⟨hpre, hnm, hcps2, hafter⟩ := h
      obtain ⟨hdec, hhead⟩ := runLen_nl_decomp r
      have hrepl : ('\n' : Char) :: '\n' :: '\n' :: r =
          List.replicate (3 + runLen nlCC r) '\n' ++ r.drop (runLen nlCC r) := by
        rw [List.replicate_add]
        conv_lhs => rw [hdec]
        simp [List.replicate]
      have hafter2 : after = r.drop (runLen nlCC r) := by
        rw [← hafter, hshape, hn, hrepl]
        exact List.drop_left' (by simp)
      refine ⟨?_, by omega, ?_, ?_, ?_, ?_⟩
      · rw [hshape, ← hpre, List.nil_append, ← hnm, hn, hafter2]
        exact hrepl
      · rw [← hcps2]
        exact hcps
      · rw [← hpre]
        rfl
      · rw [← hpre]
        simp
      · rw [hafter2]
        exact hhead
    | none =>
      rw [hm] at h
      cases hs : scan R8 rest (some c) with
      | none =>
        rw [hs] at h
        cases h
      | some w =>
        obtain ⟨pre', n', cps', after'⟩ := w
        rw [hs] at h
        simp only [Option.some.injEq, Prod.mk.injEq] at h
        obtain ⟨hpre, hnm, hcps2, hafter⟩ := h
        obtain ⟨h1, h2, h3, h4, h5, h6⟩ := ih (some c) pre' n' cps' after' hs
        have hnt : startsTriple (c :: rest) = false :=
          not_startsTriple_of_matchNone _ _ hm
        have hc2 : (c == '\n' && startsNN pre') = false := by
          cases hc2 : (c == '\n' && startsNN pre') with
          | false => rfl
          | true =>
            exfalso
            simp only [Bool.and_eq_true] at hc2
            obtain ⟨hc, hsNN⟩ := hc2
            obtain ⟨p2, hp2⟩ := startsNN_shape pre' hsNN
            rw [h1, hp2] at hnt
            simp [startsTriple, hc] at hnt
        refine ⟨?_, ?_, ?_, ?_, ?_, ?_⟩
        · rw [← hpre, ← hnm, ← hafter, List.cons_append, List.cons_append, ← h1]
        · omega
        · rw [← hcps2]
          exact h3
        · rw [← hpre]
          simp only [noTriple, hc2, Bool.not_false, Bool.true_and]
          exact h4
        · rw [← hpre]
          cases pre' with
          | nil =>
            show (some c : Option Char) ≠ some '\n'
            intro hcontra
            have hcn : c = '\n' := by
              injection hcontra
            obtain ⟨k, hk⟩ : ∃ k, n' = 3 + k := ⟨n' - 3, by omega⟩
            rw [h1, hcn, hk, List.nil_append, List.replicate_add] at hnt
            simp [startsTriple, List.replicate] at hnt
          | cons d p2 =>
            rw [List.getLast?_cons_cons]
            exact h5
        · rw [← hafter]
          exact h6

theorem startsTriple_cons (c : Char) (l : List Char) :
    startsTriple (c :: l) = (c == '\n' && startsNN l) := by
  match l with
  | [] => simp [startsTriple, startsNN]
  | [a] => simp [startsTriple, startsNN]
  | a :: b :: r =>
    simp only [startsTriple, startsNN]
    rw [Bool.and_assoc]

theorem noTriple_of_scan_none (txt : List Char) :
    ∀ prev, scan R8 txt prev = none → noTriple txt = true := by
  induction txt with
  | nil => intro prev h; rfl
  | cons c rest ih =>
    intro prev h
    rw [scan_cons] at h
    cases hm : matchItems R8 (c :: rest) prev with
    | some v =>
      obtain ⟨m, cs2⟩ := v
      rw [hm] at h
      cases h
    | none =>
      rw [hm] at h
      have hs : scan R8 rest (some c) = none := by
        cases hs : scan R8 rest (some c) with
        | none => rfl
        | some w =>
          obtain ⟨a, b, cc, d⟩ := w
          rw [hs] at h
          cases h
      have h1 : startsTriple (c :: rest) = false :=
        not_startsTriple_of_matchNone _ _ hm
      rw [startsTriple_cons] at h1
      simp only [noTriple, h1, Bool.not_false, Bool.true_and]
      exact ih (some c) hs

theorem startsNN_head (l : List Char) (h : l.head? ≠ some '\n') :
    startsNN l = false := by
  match l with
  | [] => rfl
  | [a] => rfl
  | a :: b :: r =>
    have ha : a ≠ '\n' := by
      intro hh
      apply h
      rw [hh]
      rfl
    simp [startsNN, ha]

theorem noTriple_cons (c : Char) (l : List Char) :
    noTriple (c :: l) = (!(c == '\n' && startsNN l) && noTriple l) := rfl

theorem noTriple_compose : ∀ (pre rec : List Char), noTriple pre = true →
    pre.getLast? ≠ some '\n' → rec.head? ≠ some '\n' → noTriple rec = true →
    noTriple (pre ++ '\n' :: '\n' :: rec) = true
  | [], rec, _, _, h3, h4 => by
    cases rec with
    | nil => decide
    | cons d rs =>
      have hd : d ≠ '\n' := by
        intro hh
        apply h3
        rw [hh]
        rfl
      have hd2 : (d == '\n') = false := by simp [hd]
      have h5 : startsNN (d :: rs) = false := startsNN_head _ h3
      have h6 : startsNN ('\n' :: d :: rs) = false := by simp [startsNN, hd2]
      show noTriple ('\n' :: '\n' :: d :: rs) = true
      rw [noTriple_cons, noTriple_cons, h5, h6]
      simp [h4]
  | [a], rec, h1, h2, h3, h4 => by
    have ha : a ≠ '\n' := by
      intro hh
      apply h2
      rw [hh]
      rfl
    have ha2 : (a == '\n') = false := by simp [ha]
    have hbase := noTriple_compose [] rec rfl (by simp) h3 h4
    simp only [List.nil_append] at hbase
    show noTriple (a :: ('\n' :: '\n' :: rec)) = true
    rw [noTriple_cons, ha2]
    simp [hbase]
  | a :: b :: pre, rec, h1, h2, h3, h4 => by
    rw [List.getLast?_cons_cons] at h2
    have hrec := noTriple_compose (b :: pre) rec (noTriple_tail a _ h1) h2 h3 h4
    show noTriple (a :: ((b :: pre) ++ '\n' :: '\n' :: rec)) = true
    rw [noTriple_cons]
    simp only [Bool.and_eq_true, Bool.not_eq_true']
    refine ⟨?_, hrec⟩
    cases pre with
    | nil =>
      have hb : (b == '\n') = false := by
        simp only [beq_eq_false_iff_ne, ne_eq]
        intro hh
        apply h2
        rw [hh]
        rfl
      show (a == '\n' && startsNN (b :: '\n' :: '\n' :: rec)) = false
      simp [startsNN, hb]
    | cons p ps =>
      have h1' : (a == '\n' && startsNN (b :: p :: ps)) = false := by
        rw [noTriple_cons] at h1
        simp only [Bool.and_eq_true, Bool.not_eq_true'] at h1
        exact h1.1
      show (a == '\n' && startsNN (b :: p :: (ps ++ '\n' :: '\n' :: rec))) = false
      have hsame : startsNN (b :: p :: (ps ++ '\n' :: '\n' :: rec)) =
          startsNN (b :: p :: ps) := by
        simp [startsNN]
      rw [hsame]
      exact h1'

theorem subGo_R8_no_match (txt : List Char) (prev : Option Char)
    (h : scan R8 txt prev = none) :
    ∀ fuel, subGo R8 tplR8 fuel txt prev = txt := by
  intro fuel
  cases fuel with
  | zero => rfl
  | succ f =>
    simp only [subGo]
    rw [h]

theorem subGo_R8_head (fuel : Nat) (txt : List Char) (prev : Option Char)
    (h : txt.head? ≠ some '\n') :
    (subGo R8 tplR8 fuel txt prev).head? = txt.head? := by
  cases fuel with
  | zero => rfl
  | succ f =>
    cases hs : scan R8 txt prev with
    | none => rw [subGo_R8_no_match txt prev hs]
    | some w =>
      obtain ⟨pre, n, cps, after⟩ := w
      obtain ⟨hshape, hn3, hcps, hnt, hlast, hhead⟩ :=
        scan_R8_some txt prev pre n cps after hs
      simp only [subGo]
      rw [hs]
      obtain ⟨m, hm⟩ : ∃ m, n = m + 1 := ⟨n - 1, by omega⟩
      rw [hm]
      cases pre with
      | nil =>
        exfalso
        apply h
        rw [hshape, List.nil_append, hm, List.replicate_succ]
        rfl
      | cons p ps =>
        conv_rhs => rw [hshape]
        simp [List.cons_append]

theorem noTriple_subGo : ∀ fuel txt prev, txt.length < fuel →
    noTriple (subGo R8 tplR8 fuel txt prev) = true := by
  intro fuel
  induction fuel with
  | zero => intro txt prev h; omega
  | succ f ih =>
    intro txt prev hlen
    cases hs : scan R8 txt prev with
    | none =>
      rw [subGo_R8_no_match txt prev hs]
      exact noTriple_of_scan_none txt prev hs
    | some w =>
      obtain ⟨pre, n, cps, after⟩ := w
      obtain ⟨hshape, hn3, hcps, hnt, hlast, hhead⟩ :=
        scan_R8_some txt prev pre n cps after hs
      simp only [subGo]
      rw [hs]
      obtain ⟨m, hm⟩ : ∃ m, n = m + 1 := ⟨n - 1, by omega⟩
      rw [hm]
      show noTriple (pre ++ instTpl tplR8 cps ++
        subGo R8 tplR8 f after (newPrev txt (pre.length + (m + 1)) prev)) = true
      have htpl : instTpl tplR8 cps = ['\n', '\n'] := by
        simp [tplR8, instTpl]
      rw [htpl]
      have hafterlen : after.length < f := by
        have hl := congrArg List.length hshape
        simp only [List.length_append, List.length_replicate] at hl
        omega
      have hrec := ih after (newPrev txt (pre.length + (m + 1)) prev) hafterlen
      have hrechead :
          (subGo R8 tplR8 f after (newPrev txt (pre.length + (m + 1)) prev)).head? ≠
            some '\n' := by
        rw [subGo_R8_head f after _ hhead]
        exact hhead
      rw [List.append_assoc]
      exact noTriple_compose pre _ hnt hlast hrechead hrec

theorem noTriple_of_nlFree (l : List Char) (h : ∀ c ∈ l, c ≠ '\n') :
    noTriple l = true := by
  induction l with
  | nil => rfl
  | cons c t ih =>
    have hc : (c == '\n') = false := by
      simp [h c (List.mem_cons_self c t)]
    rw [noTriple_cons, hc]
    simp [ih (fun d hd => h d (List.mem_cons_of_mem c hd))]

theorem runLen_nl_nlFree (l : List Char) (h : ∀ c ∈ l, c ≠ '\n') :
    runLen nlCC l = 0 := by
  cases l with
  | nil => rfl
  | cons c t =>
    have hc : nlCC.test c = false := by
      rw [nlCC_test]
      simp [h c (List.mem_cons_self c t)]
    simp [runLen, hc]

theorem runLen_nl_replicate (k : Nat) (suf : List Char) :
    runLen nlCC (List.replicate k '\n' ++ suf) = k + runLen nlCC suf := by
  induction k with
  | zero => simp
  | succ m ih =>
    rw [List.replicate_succ]
    show runLen nlCC ('\n' :: (List.replicate m '\n' ++ suf)) = _
    have ht : nlCC.test '\n' = true := by decide
    simp [runLen, ht, ih]
    omega

theorem scan_R8_at_run (m : Nat) (suf : List Char) (hm : 3 ≤ m)
    (h : ∀ c ∈ suf, c ≠ '\n') (prev : Option Char) :
    scan R8 (List.replicate m '\n' ++ suf) prev = some ([], m, [], suf) := by
  obtain ⟨k, hk⟩ : ∃ k, m = 3 + k := ⟨m - 3, by omega⟩
  subst hk
  have hshape : List.replicate (3 + k) '\n' ++ suf =
      '\n' :: '\n' :: '\n' :: (List.replicate k '\n' ++ suf) := by
    rw [List.replicate_add]
    simp [List.replicate]
  rw [hshape, scan_cons, matchItems_R8_some]
  have hrun : runLen nlCC (List.replicate k '\n' ++ suf) = k := by
    rw [runLen_nl_replicate, runLen_nl_nlFree suf h]
    omega
  rw [hrun]
  have hdrop : ('\n' :: '\n' :: '\n' :: (List.replicate k '\n' ++ suf)).drop (3 + k) = suf := by
    rw [← hshape]
    exact List.drop_left' (by simp)
  show some (([] : List Char), 3 + k, ([] : Caps),
      ('\n' :: '\n' :: '\n' :: (List.replicate k '\n' ++ suf)).drop (3 + k)) =
    some ([], 3 + k, [], suf)
  rw [hdrop]

theorem scan_R8_prefix (rest p2 : List Char) (n : Nat) (cps : Caps)
    (aft : List Char) (hrest : ∀ px, scan R8 rest px = some (p2, n, cps, aft)) :
    ∀ pre, (∀ c ∈ pre, c ≠ '\n') → ∀ prev,
      scan R8 (pre ++ rest) prev = some (pre ++ p2, n, cps, aft) := by
  intro pre
  induction pre with
  | nil =>
    intro _ prev
    simpa using hrest prev
  | cons c pre ih =>
    intro hpre prev
    have hc2 : (c == '\n') = false := by
      simp [hpre c (List.mem_cons_self c pre)]
    have hmn : matchItems R8 (c :: (pre ++ rest)) prev = none := by
      apply matchItems_R8_none
      rw [startsTriple_cons, hc2]
      rfl
    rw [List.cons_append, scan_cons, hmn,
      ih (fun d hd => hpre d (List.mem_cons_of_mem c hd)) (some c)]
    simp [List.cons_append]

theorem reSub_R8_collapse (pre suf : List Char) (j : Nat) (h3 : 3 ≤ j)
    (hpre : ∀ c ∈ pre, c ≠ '\n') (hsuf : ∀ c ∈ suf, c ≠ '\n') :
    reSub R8 tplR8 ⟨pre ++ List.replicate (j + 1) '\n' ++ suf⟩ =
      ⟨pre ++ '\n' :: '\n' :: suf⟩ := by
  have hscan : scan R8 (pre ++ List.replicate (j + 1) '\n' ++ suf) none =
      some (pre ++ [], j + 1, [], suf) := by
    rw [List.append_assoc]
    exact scan_R8_prefix _ _ _ _ _
      (fun px => scan_R8_at_run (j + 1) suf (by omega) hsuf px) pre hpre none
  have hsufsub : ∀ fuel px, subGo R8 tplR8 fuel suf px = suf := fun fuel px =>
    subGo_R8_no_match suf px (scan_R8_none suf (noTriple_of_nlFree suf hsuf) px) fuel
  apply congrArg String.mk
  show subGo R8 tplR8 ((pre ++ List.replicate (j + 1) '\n' ++ suf).length + 1)
      (pre ++ List.replicate (j + 1) '\n' ++ suf) none =
    pre ++ '\n' :: '\n' :: suf
  simp only [subGo]
  rw [hscan]
  show (pre ++ []) ++ instTpl tplR8 [] ++
      subGo R8 tplR8 (pre ++ List.replicate (j + 1) '\n' ++ suf).length suf
        (newPrev (pre ++ List.replicate (j + 1) '\n' ++ suf)
          ((pre ++ []).length + (j + 1)) none) =
    pre ++ '\n' :: '\n' :: suf
  rw [hsufsub]
  show (pre ++ []) ++ ['\n', '\n'] ++ suf = pre ++ '\n' :: '\n' :: suf
  simp

theorem noTriple_reSub_R8 (s : String) :
    noTriple (reSub R8 tplR8 s).data = true := by
  show noTriple (subGo R8 tplR8 (s.data.length + 1) s.data none) = true
  exact noTriple_subGo _ _ _ (by omega)

theorem hasSub4_false_of_noTriple (l : List Char) (h : noTriple l = true) :
    hasSub ['\n', '\n', '\n', '\n'] l = false := by
  induction l with
  | nil => rfl
  | cons c t ih =>
    have hpf : List.isPrefixOf ['\n', '\n', '\n', '\n'] (c :: t) = false := by
      cases hp : List.isPrefixOf ['\n', '\n', '\n', '\n'] (c :: t) with
      | false => rfl
      | true =>
        exfalso
        obtain ⟨t2, ht2⟩ := List.isPrefixOf_iff_prefix.mp hp
        have hst := startsTriple_of_noTriple _ h
        rw [← ht2] at hst
        simp [startsTriple] at hst
    simp only [hasSub, hpf, Bool.false_or]
    exact ih (noTriple_tail _ _ h)

/-- C7: the final rule of the debug-statement pass collapses any run of
three or more consecutive blank lines (a run of four or more newline
characters between two newline-free pieces of text) into exactly one blank
line, and the pass's output never contains a run of three or more
consecutive blank lines (no four consecutive newlines). -/
theorem C7_thm :
    (∀ (pre suf : String) (j : Nat), 3 ≤ j →
        (∀ c ∈ pre.data, c ≠ '\n') → (∀ c ∈ suf.data, c ≠ '\n') →
        reSub R8 tplR8 ⟨pre.data ++ List.replicate (j + 1) '\n' ++ suf.data⟩ =
          ⟨pre.data ++ '\n' :: '\n' :: suf.data⟩) ∧
      ∀ s : String,
        hasSub ['\n', '\n', '\n', '\n'] (remove_console_logs s).data = false := by
  constructor
  · intro pre suf j h3 hpre hsuf
    exact reSub_R8_collapse pre.data suf.data j h3 hpre hsuf
  · intro s
    apply hasSub4_false_of_noTriple
    unfold remove_console_logs
    apply noTriple_reSub_R8

/-- C7, witness: a run of three blank lines collapses to one, and a
collapsed text has no four consecutive newlines. -/
theorem C7_thm_witness :
    reSub R8 tplR8 ("a\n\n\n\nb") = ("a\n\nb") ∧
      hasSub ['\n', '\n', '\n', '\n']
        (remove_console_logs ("x\n\n\n\n\ny")).data = false := by
  constructor
  · exact C7_thm.1 ("a") ("b") 3 (by omega) (by decide) (by decide)
  · exact C7_thm.2 ("x\n\n\n\n\ny")


/-- C10: on a tokens-table path the unused-symbol pass removes the
removed-identifier token shapes anywhere in the file text — here an
object-literal member `a, Popover ` (comma shape before `}`) and a call
argument `Popover, ` — not only inside import statements. -/
theorem C10_thm :
    fix_unused_imports tokensTablePath popoverNonImport = popoverNonImportOut :=
  rfl


theorem char_beq_false (a b : Char) (h : a ≠ b) : (b == a) = false := by
  simp only [beq_eq_false_iff_ne, ne_eq]
  exact fun hh => h hh.symm

theorem isPrefixOf_self_append (l r : List Char) : l.isPrefixOf (l ++ r) = true := by
  induction l with
  | nil =>
    show List.isPrefixOf [] r = true
    cases r with
    | nil => rfl
    | cons c t => rfl
  | cons c t ih => simp [List.isPrefixOf, ih]

theorem tryDrops_none (k : List Char → Option Char → Option (Nat × Caps))
    (txt : List Char) (prev : Option Char) :
    ∀ n, (∀ i, i ≤ n → k (txt.drop i) (newPrev txt i prev) = none) →
      tryDrops k txt prev n = none := by
  intro n
  induction n with
  | zero =>
    intro h
    have h0 := h 0 (by omega)
    simpa [newPrev] using h0
  | succ i ih =>
    intro h
    show tryDrops k txt prev (i + 1) = none
    simp only [tryDrops]
    rw [h (i + 1) (by omega)]
    exact ih (fun j hj => h j (by omega))

theorem runLen_append_exact (a : List Char) (b0 : Char) (bs : List Char) (cc : CC)
    (ha : ∀ c ∈ a, cc.test c = true) (hb : cc.test b0 = false) :
    runLen cc (a ++ b0 :: bs) = a.length := by
  induction a with
  | nil => simp [runLen, hb]
  | cons c t ih =>
    have hc := ha c (List.mem_cons_self c t)
    simp only [List.cons_append, runLen, hc, if_true]
    show runLen cc (t ++ b0 :: bs) + 1 = (c :: t).length
    rw [ih (fun d hd => ha d (List.mem_cons_of_mem c hd))]
    simp

theorem runLen_lt_length_of_mem_not (cc : CC) (l : List Char) (c : Char)
    (hc : c ∈ l) (hf : cc.test c = false) : runLen cc l < l.length := by
  induction l with
  | nil => cases hc
  | cons x xs ih =>
    cases hx : cc.test x with
    | false => simp [runLen, hx]
    | true =>
      have hcx : c ≠ x := fun hh => by rw [hh, hx] at hf; cases hf
      have hcm : c ∈ xs := by
        rcases List.mem_cons.mp hc with h1 | h1
        · exact absurd h1 hcx
        · exact h1
      have := ih hcm
      simp only [runLen, hx, if_true, List.length_cons]
      omega

theorem mem_split_first (c : Char) (l : List Char) (h : c ∈ l) :
    ∃ A B, l = A ++ c :: B ∧ c ∉ A := by
  induction l with
  | nil => cases h
  | cons x xs ih =>
    by_cases hx : c = x
    · exact ⟨[], xs, by rw [hx]; rfl, by simp⟩
    · have hcm : c ∈ xs := by
        rcases List.mem_cons.mp h with h1 | h1
        · exact absurd h1 hx
        · exact h1
      obtain ⟨A, B, hAB, hA⟩ := ih hcm
      exact ⟨x :: A, B, by rw [List.cons_append, hAB], by
        simp only [List.mem_cons, not_or]
        exact ⟨hx, hA⟩⟩

theorem matchItems_bol_pass (its : List RItem) (txt : List Char) :
    matchItems (.bol :: its) txt none = matchItems its txt none := rfl

theorem matchItems_bol_block (its : List RItem) (txt : List Char) (c : Char)
    (hc : c ≠ '\n') : matchItems (.bol :: its) txt (some c) = none := by
  simp [matchItems, hc]

theorem matchItems_star (cc : CC) (its : List RItem) (txt : List Char)
    (prev : Option Char) :
    matchItems (.star cc :: its) txt prev =
      tryDrops (matchItems its) txt prev (runLen cc txt) := rfl

theorem matchItems_lit_append (l rest : List Char) (its : List RItem)
    (prev : Option Char) :
    matchItems (.lit l :: its) (l ++ rest) prev =
      match matchItems its rest (newPrev (l ++ rest) l.length prev) with
      | some (m, cs) => some (l.length + m, cs)
      | none => none := by
  have hp : l.isPrefixOf (l ++ rest) = true := isPrefixOf_self_append l rest
  simp [matchItems, hp, List.drop_left]

theorem matchItems_lit_mismatch (c : Char) (lt : List Char) (its : List RItem)
    (d : Char) (rest : List Char) (prev : Option Char) (h : (c == d) = false) :
    matchItems (.lit (c :: lt) :: its) (d :: rest) prev = none := by
  simp [matchItems, List.isPrefixOf, h]

theorem matchItems_eol_cons (its : List RItem) (d : Char) (rest : List Char)
    (prev : Option Char) (hd : d ≠ '\n') :
    matchItems (.eol :: its) (d :: rest) prev = none := by
  simp [matchItems, hd]

theorem starWs_eol_none (Z : List Char) (prev : Option Char)
    (hZ : ∀ c ∈ Z, c ≠ '\n') (c0 : Char) (hc0m : c0 ∈ Z)
    (hc0 : wsCC.test c0 = false) :
    matchItems [.star wsCC, .eol] Z prev = none := by
  rw [matchItems_star]
  apply tryDrops_none
  intro i hi
  have hlt : runLen wsCC Z < Z.length :=
    runLen_lt_length_of_mem_not wsCC Z c0 hc0m hc0
  have hiz : i < Z.length := by omega
  rw [List.drop_eq_getElem_cons hiz]
  exact matchItems_eol_cons [] _ _ _ (hZ _ (List.getElem_mem hiz))

theorem afterParen_none (B : List Char) (prev : Option Char)
    (hB : ∀ c ∈ B, c ≠ '\n') :
    matchItems [.lit [')', ';'], .star wsCC, .eol]
      (')' :: (B ++ [')', ';'])) prev = none := by
  cases B with
  | nil =>
    have h1 : ((';' : Char) == ')') = false := by decide
    simp [matchItems, List.isPrefixOf, h1]
  | cons b B' =>
    cases hb : (';' == b) with
    | false => simp [matchItems, List.isPrefixOf, hb]
    | true =>
      have hbeq : b = ';' := (eq_of_beq hb).symm
      subst hbeq
      have hlit := matchItems_lit_append [')', ';'] (B' ++ [')', ';'])
        [.star wsCC, .eol] prev
      have hstar : ∀ pv, matchItems [.star wsCC, .eol] (B' ++ [')', ';']) pv = none := by
        intro pv
        apply starWs_eol_none _ _ ?_ ';' (by simp) (by decide)
        intro c hc
        rcases List.mem_append.mp hc with h1 | h1
        · exact hB c (List.mem_cons_of_mem _ h1)
        · simp only [List.mem_cons, List.not_mem_nil, or_false] at h1
          rcases h1 with h2 | h2 <;> subst h2 <;> decide
      show matchItems (.lit [')', ';'] :: [.star wsCC, .eol])
        ([')', ';'] ++ (B' ++ [')', ';'])) prev = none
      rw [hlit, hstar]

theorem starParen_stage_none (args : List Char) (prev : Option Char)
    (hNoNl : ∀ c ∈ args, c ≠ '\n') (hpar : ')' ∈ args) :
    matchItems [.star notRParen, .lit [')', ';'], .star wsCC, .eol]
      (args ++ [')', ';']) prev = none := by
  obtain ⟨A, B, hsplit, hAfree⟩ := mem_split_first ')' args hpar
  subst hsplit
  rw [List.append_assoc, List.cons_append, matchItems_star]
  have hrun : runLen notRParen (A ++ ')' :: (B ++ [')', ';'])) = A.length := by
    apply runLen_append_exact
    · intro c hc
      rw [notRParen_test]
      have : c ≠ ')' := fun hh => hAfree (hh ▸ hc)
      simp [this]
    · decide
  rw [hrun]
  apply tryDrops_none
  intro i hi
  rcases Nat.lt_or_ge i A.length with hlt | hge
  · rw [List.drop_append_of_le_length (by omega)]
    rw [List.drop_eq_getElem_cons hlt]
    rw [List.cons_append]
    apply matchItems_lit_mismatch
    apply char_beq_false
    exact fun hh => hAfree (hh ▸ List.getElem_mem hlt)
  · have hieq : i = A.length := by omega
    subst hieq
    rw [List.drop_left]
    apply afterParen_none
    intro c hc
    exact hNoNl c (by simp [hc])

theorem matchItems_alts (as : List (List Char)) (its : List RItem)
    (txt : List Char) (prev : Option Char) :
    matchItems (.alts as :: its) txt prev =
      altsTry (matchItems its) txt prev as := rfl

theorem altsTry_prefix_false (k : List Char → Option Char → Option (Nat × Caps))
    (txt : List Char) (prev : Option Char) (a : List Char) (as : List (List Char))
    (h : a.isPrefixOf txt = false) :
    altsTry k txt prev (a :: as) = altsTry k txt prev as := by
  simp [altsTry, h]

theorem altsTry_cont_none (k : List Char → Option Char → Option (Nat × Caps))
    (txt : List Char) (prev : Option Char) (a : List Char) (as : List (List Char))
    (h : k (txt.drop a.length) (newPrev txt a.length prev) = none) :
    altsTry k txt prev (a :: as) = altsTry k txt prev as := by
  by_cases hp : a.isPrefixOf txt
  · simp [altsTry, hp, h]
  · simp [altsTry, hp]

theorem isPrefixOf_head_ne (c d : Char) (lt rest : List Char)
    (h : (c == d) = false) :
    List.isPrefixOf (c :: lt) (d :: rest) = false := by
  simp [List.isPrefixOf, h]

theorem alts_stage_none (m args : List Char) (prev : Option Char)
    (hm : m = ['l','o','g'] ∨ m = ['e','r','r','o','r'] ∨
      m = ['w','a','r','n'] ∨ m = ['i','n','f','o'])
    (hNoNl : ∀ c ∈ args, c ≠ '\n') (hpar : ')' ∈ args) :
    matchItems (.alts [['l','o','g'], ['e','r','r','o','r'], ['w','a','r','n'],
        ['i','n','f','o']] ::
        .lit ['('] :: [.star notRParen, .lit [')', ';'], .star wsCC, .eol])
      (m ++ '(' :: (args ++ [')', ';'])) prev = none := by
  have hk : ∀ pv, matchItems
      (.lit ['('] :: [.star notRParen, .lit [')', ';'], .star wsCC, .eol])
      ('(' :: (args ++ [')', ';'])) pv = none := by
    intro pv
    have hla := matchItems_lit_append ['('] (args ++ [')', ';'])
      [.star notRParen, .lit [')', ';'], .star wsCC, .eol] pv
    rw [show ((['('] : List Char) ++ (args ++ [')', ';'])) =
      '(' :: (args ++ [')', ';']) from rfl] at hla
    rw [hla, starParen_stage_none args _ hNoNl hpar]
  rcases hm with h | h | h | h <;> subst h <;>
    simp only [List.cons_append, List.nil_append]
  · rw [matchItems_alts,
      altsTry_cont_none _ _ _ _ _ (by exact hk _),
      altsTry_prefix_false _ _ _ _ _ (isPrefixOf_head_ne 'e' 'l' _ _ (by decide)),
      altsTry_prefix_false _ _ _ _ _ (isPrefixOf_head_ne 'w' 'l' _ _ (by decide)),
      altsTry_prefix_false _ _ _ _ _ (isPrefixOf_head_ne 'i' 'l' _ _ (by decide))]
    rfl
  · rw [matchItems_alts,
      altsTry_prefix_false _ _ _ _ _ (isPrefixOf_head_ne 'l' 'e' _ _ (by decide)),
      altsTry_cont_none _ _ _ _ _ (by exact hk _),
      altsTry_prefix_false _ _ _ _ _ (isPrefixOf_head_ne 'w' 'e' _ _ (by decide)),
      altsTry_prefix_false _ _ _ _ _ (isPrefixOf_head_ne 'i' 'e' _ _ (by decide))]
    rfl
  · rw [matchItems_alts,
      altsTry_prefix_false _ _ _ _ _ (isPrefixOf_head_ne 'l' 'w' _ _ (by decide)),
      altsTry_prefix_false _ _ _ _ _ (isPrefixOf_head_ne 'e' 'w' _ _ (by decide)),
      altsTry_cont_none _ _ _ _ _ (by exact hk _),
      altsTry_prefix_false _ _ _ _ _ (isPrefixOf_head_ne 'i' 'w' _ _ (by decide))]
    rfl
  · rw [matchItems_alts,
      altsTry_prefix_false _ _ _ _ _ (isPrefixOf_head_ne 'l' 'i' _ _ (by decide)),
      altsTry_prefix_false _ _ _ _ _ (isPrefixOf_head_ne 'e' 'i' _ _ (by decide)),
      altsTry_prefix_false _ _ _ _ _ (isPrefixOf_head_ne 'w' 'i' _ _ (by decide)),
      altsTry_cont_none _ _ _ _ _ (by exact hk _)]
    rfl

theorem wsCC_cases (c : Char) (h : wsCC.test c = true) :
    c ∈ [' ', '\t', '\n', '\r', '\x0b', '\x0c'] := by
  simp only [wsCC, CC.test, Bool.false_eq_true, if_false] at h
  simpa using h

theorem ws_c_beq (c : Char) (h : wsCC.test c = true) :
    (('c' : Char) == c) = false := by
  have hm := wsCC_cases c h
  fin_cases hm <;> decide

theorem matchItems_R1_block (txt : List Char) (c : Char) (hc : c ≠ '\n') :
    matchItems R1 txt (some c) = none :=
  matchItems_bol_block _ txt c hc

theorem matchItems_R1_line0 (I m args : List Char)
    (hIws : ∀ c ∈ I, wsCC.test c = true)
    (hm : m = ['l','o','g'] ∨ m = ['e','r','r','o','r'] ∨
      m = ['w','a','r','n'] ∨ m = ['i','n','f','o'])
    (hNoNl : ∀ c ∈ args, c ≠ '\n') (hpar : ')' ∈ args) :
    matchItems R1
      (I ++ (("console.").data ++ (m ++ '(' :: (args ++ [')', ';'])))) none =
      none := by
  show matchItems (.bol :: .star wsCC :: .lit ['c','o','n','s','o','l','e','.'] ::
      .alts [['l','o','g'], ['e','r','r','o','r'], ['w','a','r','n'], ['i','n','f','o']] ::
      .lit ['('] :: [.star notRParen, .lit [')', ';'], .star wsCC, .eol])
    (I ++ (['c','o','n','s','o','l','e','.'] ++ (m ++ '(' :: (args ++ [')', ';']))))
    none = none
  rw [matchItems_bol_pass, matchItems_star]
  have hrun : runLen wsCC
      (I ++ (['c','o','n','s','o','l','e','.'] ++ (m ++ '(' :: (args ++ [')', ';'])))) =
      I.length := by
    exact runLen_append_exact I 'c' _ wsCC hIws (by decide)
  rw [hrun]
  apply tryDrops_none
  intro i hi
  rcases Nat.lt_or_ge i I.length with hlt | hge
  · rw [List.drop_append_of_le_length (by omega), List.drop_eq_getElem_cons hlt,
      List.cons_append]
    exact matchItems_lit_mismatch 'c' _ _ _ _ _
      (ws_c_beq _ (hIws _ (List.getElem_mem hlt)))
  · have hieq : i = I.length := by omega
    subst hieq
    rw [List.drop_left]
    have hla := matchItems_lit_append ['c','o','n','s','o','l','e','.']
      (m ++ '(' :: (args ++ [')', ';']))
      (.alts [['l','o','g'], ['e','r','r','o','r'], ['w','a','r','n'], ['i','n','f','o']] ::
        .lit ['('] :: [.star notRParen, .lit [')', ';'], .star wsCC, .eol])
      (newPrev (I ++ (['c','o','n','s','o','l','e','.'] ++
        (m ++ '(' :: (args ++ [')', ';'])))) I.length none)
    rw [hla, alts_stage_none m args _ hm hNoNl hpar]

theorem scan_R1_inner (rest : List Char) :
    (∀ c ∈ rest, c ≠ '\n') → ∀ c, c ≠ '\n' → scan R1 rest (some c) = none := by
  induction rest with
  | nil =>
    intro _ c hc
    rw [scan_nil, matchItems_R1_block [] c hc]
  | cons d rest ih =>
    intro hnl c hc
    rw [scan_cons, matchItems_R1_block _ c hc,
      ih (fun e he => hnl e (List.mem_cons_of_mem d he)) d
        (hnl d (List.mem_cons_self d rest))]

theorem scan_R1_top (txt : List Char) (hnl : ∀ c ∈ txt, c ≠ '\n')
    (h0 : matchItems R1 txt none = none) : scan R1 txt none = none := by
  cases txt with
  | nil =>
    rw [scan_nil, h0]
  | cons d rest =>
    rw [scan_cons, h0,
      scan_R1_inner rest (fun e he => hnl e (List.mem_cons_of_mem d he)) d
        (hnl d (List.mem_cons_self d rest))]


/-- C9 counterexample: when the standalone console line is the last line of
the file, the greedy trailing `\s*$` consumes the final newline too, so the
line's trailing newline is not retained: the whole text becomes empty, not a
single newline. -/
theorem C9_cex :
    reSub R1 [] ("console.log(1);\n") = ("") ∧ (("") : String) ≠ ("\n") :=
  ⟨rfl, by decide⟩

/-- C9 amended: (a) rule 1 matches only console calls whose argument text
contains no closing parenthesis — a standalone console line whose arguments
contain a `)` is left unchanged for every whitespace indent, every method of
log/error/warn/info and every newline-free argument text; (b) when the rule
matches, the line's text is deleted, and the trailing newline is retained
when the next line starts with a non-whitespace character but is consumed
when the line ends the file. -/
theorem C9_thm :
    (∀ (indent meth args : String),
        (meth = ("log") ∨ meth = ("error") ∨ meth = ("warn") ∨ meth = ("info")) →
        (∀ c ∈ indent.data, wsCC.test c = true ∧ c ≠ '\n') →
        '\n' ∉ args.data → ')' ∈ args.data →
        reSub R1 [] (consoleLine indent meth args) = consoleLine indent meth args) ∧
      reSub R1 [] ("console.log(1);\nx") = ("\nx") ∧
      reSub R1 [] ("console.log(1);\n") = ("") := by
  refine ⟨?_, rfl, rfl⟩
  intro indent meth args hm hind hargsNl hpar
  apply reSub_id_of_no_match
  unfold matchesPat
  have hm' : meth.data = ['l','o','g'] ∨ meth.data = ['e','r','r','o','r'] ∨
      meth.data = ['w','a','r','n'] ∨ meth.data = ['i','n','f','o'] := by
    rcases hm with h | h | h | h
    · left; rw [h]
    · right; left; rw [h]
    · right; right; left; rw [h]
    · right; right; right; rw [h]
  have h0 : matchItems R1 (consoleLine indent meth args).data none = none :=
    matchItems_R1_line0 indent.data meth.data args.data
      (fun c hc => (hind c hc).1) hm'
      (fun c hc hh => hargsNl (hh ▸ hc)) hpar
  have hnl : ∀ c ∈ (consoleLine indent meth args).data, c ≠ '\n' := by
    intro c hc
    have hc' : c ∈ indent.data ++
        (("console.").data ++ (meth.data ++ ('(' :: (args.data ++ [')', ';'])))) := hc
    rcases List.mem_append.mp hc' with h1 | h1
    · exact (hind c h1).2
    rcases List.mem_append.mp h1 with h2 | h2
    · rw [show ("console.").data = ['c','o','n','s','o','l','e','.'] from rfl] at h2
      fin_cases h2 <;> decide
    rcases List.mem_append.mp h2 with h3 | h3
    · rcases hm' with hM | hM | hM | hM <;> rw [hM] at h3 <;>
        (fin_cases h3 <;> decide)
    rcases List.mem_cons.mp h3 with h4 | h4
    · subst h4; decide
    rcases List.mem_append.mp h4 with h5 | h5
    · exact fun hh => hargsNl (hh ▸ h5)
    · fin_cases h5 <;> decide
  rw [scan_R1_top _ hnl h0]
  rfl

/-- C9, witness: the nested-call line `  console.log(f(1));` is unchanged,
and a matched line followed by a non-whitespace character keeps its
newline. -/
theorem C9_thm_witness :
    reSub R1 [] (consoleLine ("  ") ("log") ("f(1)")) =
        consoleLine ("  ") ("log") ("f(1)") ∧
      reSub R1 [] ("console.log(1);\nx") = ("\nx") :=
  ⟨C9_thm.1 ("  ") ("log") ("f(1)") (Or.inl rfl) (by decide) (by decide)
    (by decide), C9_thm.2.1⟩


end FixLint
